import Mathlib

/-!
# Verification of the specify-cli scaffolding pipeline

Shallow embedding of the core functions of `src/specify_cli/__init__.py`:

* token resolution (`_github_token`, `_github_auth_headers`),
* release-asset selection and streamed download
  (`download_template_from_github`),
* archive materialization with the single-wrapper flatten rule
  (`download_and_extract_template`, fresh mode and merge mode),
* workspace synchronization (`_merge_directory`, `sync_workspace_config`),
* config persistence (`setup_agent_commands`), and
* the per-feature next-action label (`_collect_workflow_artifacts`).

The filesystem is modelled as a pair of maps: file paths to contents and a
set of directory paths.  Paths are lists of name components.  Directory
trees handed to copy operations are modelled by the inductive `FSTree`.
-/

namespace SpecifyCli

/-! ## Paths and the filesystem state -/

abbrev Path := List String

/-- A directory tree: either a file with string contents, or a directory
with a list of named entries (the result of `iterdir` in declaration
order). -/
inductive FSTree where
  | file (content : String)
  | dir (entries : List (String × FSTree))

/-- Mutable filesystem state: contents of files and the set of existing
directories, both keyed by absolute path. -/
structure FS where
  files : Path → Option String
  dirs : Path → Bool

/-- Python's `Path.exists()`: true when the path is an existing file or an
existing directory. -/
def FS.pathExists (fs : FS) (p : Path) : Bool :=
  fs.dirs p || (fs.files p).isSome

/-- Writing a file (`open(..., 'wb')` + writes, or `shutil.copy2`):
replaces the contents at `p`. -/
def FS.writeFile (fs : FS) (p : Path) (c : String) : FS :=
  { fs with files := fun q => if q = p then some c else fs.files q }

/-- Python's `Path.unlink()`: removes the file at `p`. -/
def FS.deleteFile (fs : FS) (p : Path) : FS :=
  { fs with files := fun q => if q = p then none else fs.files q }

/-- Python's `Path.mkdir(parents=True, exist_ok=True)`: marks `p` and
every ancestor of `p` as an existing directory. -/
def FS.mkdirParents (fs : FS) (p : Path) : FS :=
  { fs with dirs := fun q => if q.isPrefixOf p then true else fs.dirs q }

@[simp] theorem FS.writeFile_files (fs : FS) (p : Path) (c : String) (q : Path) :
    (fs.writeFile p c).files q = if q = p then some c else fs.files q := rfl

@[simp] theorem FS.deleteFile_files (fs : FS) (p : Path) (q : Path) :
    (fs.deleteFile p).files q = if q = p then none else fs.files q := rfl

@[simp] theorem FS.mkdirParents_files (fs : FS) (p : Path) :
    (fs.mkdirParents p).files = fs.files := rfl

@[simp] theorem FS.writeFile_dirs (fs : FS) (p : Path) (c : String) :
    (fs.writeFile p c).dirs = fs.dirs := rfl

@[simp] theorem FS.deleteFile_dirs (fs : FS) (p : Path) :
    (fs.deleteFile p).dirs = fs.dirs := rfl

/-! ## Token resolution (`_github_token`, `_github_auth_headers`)

```python
def _github_token(cli_token: str | None = None) -> str | None:
    return ((cli_token or os.getenv("GH_TOKEN")
             or os.getenv("GITHUB_TOKEN") or "").strip()) or None
```

Python's `or` chain uses truthiness: `None` and `""` are falsy, every
other string — including whitespace-only strings — is truthy.  An absent
environment variable is `None`. -/

/-- Python's `x or y` on optional strings: `None` and `""` are falsy. -/
def pyOrStr (a b : Option String) : Option String :=
  match a with
  | some s => if s = "" then b else some s
  | none => b

/-- Dropping leading and trailing whitespace from a character list. -/
def stripChars (cs : List Char) : List Char :=
  ((cs.dropWhile Char.isWhitespace).reverse.dropWhile Char.isWhitespace).reverse

/-- Python's `str.strip()`: removes leading and trailing whitespace. -/
def pyStrip (s : String) : String := String.mk (stripChars s.data)

/-- The function `_github_token(cli_token)`, with the two environment
variables `GH_TOKEN` and `GITHUB_TOKEN` passed explicitly. -/
def githubToken (cliToken ghToken githubTokenEnv : Option String) : Option String :=
  let raw := (pyOrStr (pyOrStr (pyOrStr cliToken ghToken) githubTokenEnv) (some "")).getD ""
  let stripped := pyStrip raw
  if stripped = "" then none else some stripped

/-- The function `_github_auth_headers(cli_token)`: an `Authorization`
header exactly when a token resolves. -/
def githubAuthHeaders (cliToken ghToken githubTokenEnv : Option String) :
    List (String × String) :=
  match githubToken cliToken ghToken githubTokenEnv with
  | some t => [("Authorization", "Bearer " ++ t)]
  | none => []

/-! ## Next-action label (`_collect_workflow_artifacts`, lines 330–337)

```python
if not spec_exists:   next_command = "specify"
elif not plan_exists: next_command = "plan"
elif not tasks_exists:next_command = "tasks"
else:                 next_command = "implement"
```
-/

/-- The `next_command` label derived from the three marker-file existence
checks. -/
def nextCommand (specExists planExists tasksExists : Bool) : String :=
  if !specExists then "specify"
  else if !planExists then "plan"
  else if !tasksExists then "tasks"
  else "implement"

/-! ## Release-asset selection (`download_template_from_github`, lines 1072–1086)

```python
assets = release_data.get("assets", [])
pattern = f"spec-kit-template-{ai_assistant}-{script_type}"
matching_assets = [asset for asset in assets
                   if pattern in asset["name"] and asset["name"].endswith(".zip")]
asset = matching_assets[0] if matching_assets else None
if asset is None:
    console.print(f"...No matching release asset found... (expected pattern: {pattern})")
    raise typer.Exit(1)
```
-/

/-- A release asset record (`{name, size, browser_download_url}`). -/
structure Asset where
  name : String
  size : Nat
  browser_download_url : String
deriving DecidableEq, Repr

/-- The asset-name pattern `spec-kit-template-{ai_assistant}-{script_type}`. -/
def assetPattern (aiAssistant scriptType : String) : String :=
  "spec-kit-template-" ++ aiAssistant ++ "-" ++ scriptType

/-- Python's `pattern in name` substring test, on the underlying character
lists. -/
def strContains (name pattern : String) : Bool :=
  decide (pattern.toList <:+: name.toList)

/-- Python's `name.endswith(post)`, on the underlying character lists. -/
def strEndsWith (name post : String) : Bool :=
  decide (post.toList <:+ name.toList)

/-- Whether an asset matches the requested assistant/script-type pair:
the pattern occurs in the name and the name ends with `.zip`. -/
def assetMatches (aiAssistant scriptType : String) (a : Asset) : Bool :=
  strContains a.name (assetPattern aiAssistant scriptType) && strEndsWith a.name ".zip"

/-- The diagnostic printed when no asset matches (line 1083), naming the
expected pattern. -/
def noAssetErrorMsg (aiAssistant scriptType : String) : String :=
  "No matching release asset found for " ++ aiAssistant ++
    " (expected pattern: " ++ assetPattern aiAssistant scriptType ++ ")"

/-- Asset selection: the first matching asset in list order, or an error
message naming the expected pattern when no asset matches. -/
def selectTemplateAsset (assets : List Asset) (aiAssistant scriptType : String) :
    Except String Asset :=
  let matchingAssets := assets.filter (assetMatches aiAssistant scriptType)
  match matchingAssets.head? with
  | some a => .ok a
  | none => .error (noAssetErrorMsg aiAssistant scriptType)

/-! ## Streamed download with cleanup (`download_template_from_github`,
lines 1101–1140)

```python
try:
    with client.stream("GET", download_url, ...) as response:
        if response.status_code != 200:
            raise RuntimeError(...)
        total_size = int(response.headers.get('content-length', 0))
        with open(zip_path, 'wb') as f:
            for chunk in response.iter_bytes(chunk_size=8192):
                f.write(chunk)
except Exception as e:
    if zip_path.exists():
        zip_path.unlink()
    raise typer.Exit(1)
```

The remote stream is modelled by its HTTP status, the list of chunks it
would deliver, and an optional interruption point `failAfter`:
`failAfter = some k` means an exception (write error or interrupted
stream) is raised after `k` chunks have been written. -/

/-- Appending a chunk to the file at `p` (`f.write(chunk)` on a file
opened once). -/
def writeChunk (fs : FS) (p : Path) (c : String) : FS :=
  fs.writeFile p (((fs.files p).getD "") ++ c)

/-- Sequentially writing a list of chunks. -/
def writeChunks (fs : FS) (p : Path) (cs : List String) : FS :=
  cs.foldl (fun acc c => writeChunk acc p c) fs

/-- The `except` handler: `if zip_path.exists(): zip_path.unlink()`. -/
def downloadCleanup (fs : FS) (p : Path) : FS :=
  if fs.pathExists p then fs.deleteFile p else fs

/-- The streamed-download step of `download_template_from_github`.
Returns the filesystem after the operation and either `ok` (archive fully
written) or an error (after the handler removed any partial file). -/
def downloadStream (fs : FS) (zipPath : Path) (status : Nat)
    (chunks : List String) (failAfter : Option Nat) : FS × Except String Unit :=
  if status ≠ 200 then
    -- RuntimeError is raised before the file is opened.
    (downloadCleanup fs zipPath, .error "Download failed")
  else
    match failAfter with
    | none =>
        (writeChunks (fs.writeFile zipPath "") zipPath chunks, .ok ())
    | some k =>
        (downloadCleanup (writeChunks (fs.writeFile zipPath "") zipPath (chunks.take k))
          zipPath, .error "stream interrupted")

/-! ## Directory trees: files, directory paths, well-formedness -/

/-- The parent of a path (`p.parent` / `dest_file.parent`). -/
def parentPath (p : Path) : Path := p.dropLast

mutual

/-- All files in a tree as (relative path, content) pairs — the files
found by `item.rglob('*')` with `is_file()` filtering, plus the tree
itself at path `[]` when it is a file. -/
def FSTree.filesOf : FSTree → List (Path × String)
  | .file c => [([], c)]
  | .dir es => filesOfEntries es

/-- Files of a list of named entries, paths prefixed by the entry name. -/
def filesOfEntries : List (String × FSTree) → List (Path × String)
  | [] => []
  | (n, t) :: rest =>
      (FSTree.filesOf t).map (fun pc => (n :: pc.1, pc.2)) ++ filesOfEntries rest

end

mutual

/-- All directory paths in a tree, relative to the tree's own root
(including `[]` when the tree itself is a directory). -/
def FSTree.dirPathsOf : FSTree → List Path
  | .file _ => []
  | .dir es => [] :: dirPathsOfEntries es

/-- Directory paths of a list of named entries, prefixed by entry name. -/
def dirPathsOfEntries : List (String × FSTree) → List Path
  | [] => []
  | (n, t) :: rest =>
      (FSTree.dirPathsOf t).map (fun p => n :: p) ++ dirPathsOfEntries rest

end

mutual

/-- Well-formedness of a tree: entry names are distinct at every level
(as they are for any tree read off a real filesystem). -/
def FSTree.wf : FSTree → Bool
  | .file _ => true
  | .dir es => wfEntries es

/-- Well-formedness of an entry list. -/
def wfEntries : List (String × FSTree) → Bool
  | [] => true
  | (n, t) :: rest => FSTree.wf t && rest.all (fun e => e.1 != n) && wfEntries rest

end

/-! ## `shutil.copytree` -/

mutual

/-- Python's `shutil.copytree(item, dest_path)`: copies the whole tree,
creating directories (including empty ones) and writing every file. -/
def FS.copyTree (fs : FS) (base : Path) : FSTree → FS
  | .file c => fs.writeFile base c
  | .dir es => copyTreeEntries (fs.mkdirParents base) base es

/-- Copying each named entry of a directory under `base`. -/
def copyTreeEntries (fs : FS) (base : Path) : List (String × FSTree) → FS
  | [] => fs
  | (n, t) :: rest => copyTreeEntries (FS.copyTree fs (base ++ [n]) t) base rest

end

/-! ## Merge-mode materialization (`download_and_extract_template`,
lines 1364–1409)

```python
with tempfile.TemporaryDirectory() as temp_dir:
    temp_path = Path(temp_dir)
    zip_ref.extractall(temp_path)
    extracted_items = list(temp_path.iterdir())
    source_dir = temp_path
    if len(extracted_items) == 1 and extracted_items[0].is_dir():
        source_dir = extracted_items[0]
    for item in source_dir.iterdir():
        dest_path = project_path / item.name
        if item.is_dir():
            if dest_path.exists():
                for sub_item in item.rglob('*'):
                    if sub_item.is_file():
                        rel_path = sub_item.relative_to(item)
                        dest_file = dest_path / rel_path
                        dest_file.parent.mkdir(parents=True, exist_ok=True)
                        shutil.copy2(sub_item, dest_file)
            else:
                shutil.copytree(item, dest_path)
        else:
            shutil.copy2(item, dest_path)
```
-/

/-- Copying one top-level item of the effective source tree into the
destination (the body of the `for item in source_dir.iterdir()` loop). -/
def copyMergeItem (fs : FS) (destRoot : Path) (n : String) : FSTree → FS
  | .dir es =>
      if fs.pathExists (destRoot ++ [n]) then
        (filesOfEntries es).foldl
          (fun acc pc =>
            (acc.mkdirParents (parentPath (destRoot ++ n :: pc.1))).writeFile
              (destRoot ++ n :: pc.1) pc.2)
          fs
      else fs.copyTree (destRoot ++ [n]) (.dir es)
  | .file c => fs.writeFile (destRoot ++ [n]) c

/-- The full copy loop over the effective source tree's top-level items. -/
def mergeCopyAll (fs : FS) (destRoot : Path) (items : List (String × FSTree)) : FS :=
  items.foldl (fun acc item => copyMergeItem acc destRoot item.1 item.2) fs

/-- The effective (post-flatten) top level of an extracted archive: the
contents of a single wrapping directory, or the extracted entries as-is. -/
def effectiveSourceTree (extractedItems : List (String × FSTree)) :
    List (String × FSTree) :=
  match extractedItems with
  | [(_, FSTree.dir es)] => es
  | other => other

/-- Merge-mode materialization: flatten a single wrapping directory
(lines 1378–1386), then copy each top-level item into the destination. -/
def mergeMaterialize (fs : FS) (destRoot : Path)
    (extractedItems : List (String × FSTree)) : FS :=
  let sourceDir :=
    match extractedItems with
    | [(_, FSTree.dir es)] => es
    | other => other
  mergeCopyAll fs destRoot sourceDir

/-- Fresh-mode materialization (lines 1410–1439): the archive is extracted
directly into the project directory; when the top level is a single
directory its contents are moved up one level (the `shutil.move` dance),
so the resulting project tree is the flattened entry list. -/
def freshMaterializeTree (extractedItems : List (String × FSTree)) :
    List (String × FSTree) :=
  match extractedItems with
  | [(_, FSTree.dir es)] => es
  | other => other

/-! ## Workspace synchronization (`_merge_directory`,
`sync_workspace_config`, lines 1519–1569)

```python
def _merge_directory(source, destination):
    copied = []
    if not source.exists() or not source.is_dir():
        return copied
    destination.mkdir(parents=True, exist_ok=True)
    for item in source.iterdir():
        target = destination / item.name
        if item.is_dir():
            child_results = _merge_directory(item, target)
            copied.extend([f"{item.name}/{child}" for child in child_results])
        else:
            if target.exists():
                continue
            target.parent.mkdir(parents=True, exist_ok=True)
            shutil.copy2(item, target)
            copied.append(item.name)
    return copied
```

The source side is given as an `Option FSTree` (`none` when the source
path does not exist); it is read-only during the merge. -/

mutual

/-- The function `_merge_directory(source, destination)`: returns the
updated filesystem and the list of new relative paths copied. -/
def mergeDirectory (fs : FS) (source : Option FSTree) (destination : Path) :
    FS × List String :=
  match source with
  | none => (fs, [])
  | some (.file _) => (fs, [])
  | some (.dir es) => mergeDirEntries (fs.mkdirParents destination) destination es

/-- The `for item in source.iterdir()` loop of `_merge_directory`. -/
def mergeDirEntries (fs : FS) (destination : Path) :
    List (String × FSTree) → FS × List String
  | [] => (fs, [])
  | (n, FSTree.dir es) :: rest =>
      let child := mergeDirectory fs (some (.dir es)) (destination ++ [n])
      let restRes := mergeDirEntries child.1 destination rest
      (restRes.1, (child.2.map (fun c => n ++ "/" ++ c)) ++ restRes.2)
  | (n, FSTree.file c) :: rest =>
      if fs.pathExists (destination ++ [n]) then
        mergeDirEntries fs destination rest
      else
        let fs1 := (fs.mkdirParents (parentPath (destination ++ [n]))).writeFile
          (destination ++ [n]) c
        let restRes := mergeDirEntries fs1 destination rest
        (restRes.1, n :: restRes.2)

end

/-- The tuple `WORKSPACE_DOT_DIRS = (".github", ".vscode", ".specify")`. -/
def WORKSPACE_DOT_DIRS : List String := [".github", ".vscode", ".specify"]

/-- One iteration of the `for dirname in WORKSPACE_DOT_DIRS` loop of
`sync_workspace_config`: skip when `project_path / dirname` is absent,
otherwise merge it into the workspace and record the name when files
were copied. -/
def syncDirStep (workspaceRoot : Path) (projectTrees : String → Option FSTree)
    (acc : FS × List String) (dirname : String) : FS × List String :=
  match projectTrees dirname with
  | none => acc
  | some src =>
      let merged := mergeDirectory acc.1 (some src) (workspaceRoot ++ [dirname])
      (merged.1, if merged.2 ≠ [] then acc.2 ++ [dirname] else acc.2)

/-- The function `sync_workspace_config(project_path, workspace_root)`:
returns the updated filesystem and the `(changed, detail)` pair.
`workspaceIsGitRepo` models the external `is_git_repo(workspace_root)`
probe; `projectTrees` gives the contents of `project_path / dirname`
(`none` when absent). -/
def sync_workspace_config (fs : FS) (projectPath workspaceRoot : Path)
    (workspaceIsGitRepo : Bool) (projectTrees : String → Option FSTree) :
    FS × Bool × String :=
  if projectPath = workspaceRoot then
    (fs, false, "project is workspace root")
  else if !workspaceIsGitRepo then
    (fs, false, "workspace root not a git repo")
  else
    let result := WORKSPACE_DOT_DIRS.foldl (syncDirStep workspaceRoot projectTrees) (fs, [])
    if result.2 = [] then (result.1, false, "no workspace directories to sync")
    else (result.1, true, "synced " ++ String.intercalate ", " result.2)

/-! ## Config persistence (`setup_agent_commands`, lines 1242–1284)

```python
config_file = config_dir / "models.json"
existing = {}
if config_file.exists():
    try: existing = json.loads(config_file.read_text())
    except Exception: existing = {}
config_payload = existing.copy()
github_meta = config_payload.get("github_models", {})
catalog_meta = _load_models_cache_metadata() or {}
if selected_model:
    github_meta.update({
        "selected_model": selected_model,
        "last_updated": datetime.now(timezone.utc).isoformat(),
        "catalog_source": catalog_meta.get("source")
            or github_meta.get("catalog_source", "user-selection"),
    })
elif catalog_meta.get("source") and "catalog_source" not in github_meta:
    github_meta["catalog_source"] = catalog_meta.get("source")
if catalog_meta.get("timestamp") and "catalog_cached_at" not in github_meta:
    try: github_meta["catalog_cached_at"] = cached_dt.isoformat()
    except Exception: pass
config_payload["github_models"] = github_meta
config_payload["scripts"] = {
    "preferred": script_type, "folder": script_folder,
    "extension": script_extension,
    "last_updated": datetime.now(timezone.utc).isoformat(),
}
config_file.write_text(json.dumps(config_payload, indent=2))
```
-/

/-- A flat JSON object: string keys to string values. -/
def JObj : Type := String → Option String

/-- Setting one key of a JSON object (`d[k] = v` / `d.update({...})`). -/
def JObj.set (o : JObj) (k v : String) : JObj :=
  fun q => if q = k then some v else o q

@[simp] theorem JObj.set_apply (o : JObj) (k v q : String) :
    (o.set k v) q = if q = k then some v else o q := rfl

/-- The empty JSON object. -/
def JObj.empty : JObj := fun _ => none

/-- The parsed `models.json` record: the two structured namespaces plus
all other top-level keys (opaque payloads). -/
structure ModelsJson where
  github_models : Option JObj
  scripts : Option JObj
  extra : String → Option String

/-- The config read-modify-write step of `setup_agent_commands`.
`prior = none` models a missing or unparseable file (`existing = {}`).
`selectedModel`, `catalogSource` are `none` when the corresponding Python
value is missing or falsy; `catalogCachedAt` is `none` when the cache has
no timestamp or its conversion raised.  `now` is the ISO timestamp. -/
def setupAgentCommandsConfig (prior : Option ModelsJson)
    (selectedModel catalogSource catalogCachedAt : Option String)
    (scriptType scriptFolder scriptExtension now : String) : ModelsJson :=
  let existing : ModelsJson := prior.getD ⟨none, none, fun _ => none⟩
  let gm0 : JObj := existing.github_models.getD JObj.empty
  let gm1 : JObj :=
    match selectedModel with
    | some m =>
        ((gm0.set "selected_model" m).set "last_updated" now).set "catalog_source"
          (match catalogSource with
           | some s => s
           | none => (gm0 "catalog_source").getD "user-selection")
    | none =>
        match catalogSource with
        | some s => if gm0 "catalog_source" = none then gm0.set "catalog_source" s else gm0
        | none => gm0
  let gm2 : JObj :=
    match catalogCachedAt with
    | some ts =>
        if gm1 "catalog_cached_at" = none then gm1.set "catalog_cached_at" ts else gm1
    | none => gm1
  let scriptsObj : JObj := fun k =>
    if k = "preferred" then some scriptType
    else if k = "folder" then some scriptFolder
    else if k = "extension" then some scriptExtension
    else if k = "last_updated" then some now
    else none
  { github_models := some gm2, scripts := some scriptsObj, extra := existing.extra }

/-! # Theorems -/

/-! ## C5: next-action precedence -/

/-- C5: for every feature directory and every one of the 8 combinations of
{spec, plan, tasks} marker-file presence, the derived next-action label
follows the fixed precedence exactly: missing spec → "specify" (regardless
of plan/tasks); else missing plan → "plan"; else missing tasks → "tasks";
else "implement" — the labelling is total and deterministic (it is a total
function of the three booleans). -/
theorem next_action_precedence :
    (∀ p t : Bool, nextCommand false p t = "specify") ∧
    (∀ t : Bool, nextCommand true false t = "plan") ∧
    nextCommand true true false = "tasks" ∧
    nextCommand true true true = "implement" :=
  ⟨fun _ _ => rfl, fun _ => rfl, rfl, rfl⟩

/-! ## C1: the flatten rule in both extraction modes -/

/-- C1: when the extracted top level is exactly one directory entry, both
fresh-mode and merge-mode materialization use that directory's contents
(not the directory itself) as the effective top-level tree; when the top
level has zero or two-or-more entries, the flatten step is skipped and the
extracted contents are used as-is in both modes. -/
theorem flatten_rule_both_modes :
    (∀ (n : String) (es : List (String × FSTree)),
      freshMaterializeTree [(n, FSTree.dir es)] = es) ∧
    (∀ (fs : FS) (destRoot : Path) (n : String) (es : List (String × FSTree)),
      mergeMaterialize fs destRoot [(n, FSTree.dir es)] = mergeCopyAll fs destRoot es) ∧
    (∀ items : List (String × FSTree), items.length ≠ 1 →
      freshMaterializeTree items = items ∧
      ∀ (fs : FS) (destRoot : Path),
        mergeMaterialize fs destRoot items = mergeCopyAll fs destRoot items) := by
  refine ⟨fun _ _ => rfl, fun _ _ _ _ => rfl, ?_⟩
  intro items h
  match items with
  | [] => exact ⟨rfl, fun _ _ => rfl⟩
  | [x] => simp at h
  | ⟨n, FSTree.file c⟩ :: y :: t => exact ⟨rfl, fun _ _ => rfl⟩
  | ⟨n, FSTree.dir es⟩ :: y :: t => exact ⟨rfl, fun _ _ => rfl⟩

/-- Witness for C1 at a concrete two-entry archive. -/
theorem flatten_rule_both_modes_witness :
    freshMaterializeTree [("a", FSTree.file "1"), ("b", FSTree.file "2")] =
      [("a", FSTree.file "1"), ("b", FSTree.file "2")] ∧
    mergeMaterialize ⟨fun _ => none, fun _ => false⟩ []
        [("a", FSTree.file "1"), ("b", FSTree.file "2")] =
      mergeCopyAll ⟨fun _ => none, fun _ => false⟩ []
        [("a", FSTree.file "1"), ("b", FSTree.file "2")] := by
  have h := flatten_rule_both_modes.2.2
    [("a", FSTree.file "1"), ("b", FSTree.file "2")] (by decide)
  exact ⟨h.1, h.2 ⟨fun _ => none, fun _ => false⟩ []⟩

/-! ## C7: failed downloads never leave a partial archive -/

/-- The cleanup handler leaves no file at the archive path. -/
theorem downloadCleanup_files_self (fs : FS) (p : Path) :
    (downloadCleanup fs p).files p = none := by
  unfold downloadCleanup
  cases h : fs.pathExists p with
  | true => simp [h]
  | false =>
      have hf : fs.files p = none := by
        unfold FS.pathExists at h
        rcases Bool.or_eq_false_iff.mp h with ⟨_, h2⟩
        cases hv : fs.files p with
        | none => rfl
        | some v => rw [hv] at h2; simp at h2
      simp [h, hf]

/-- C7: on any failure during the streamed download (non-success HTTP
status, write error, or interrupted stream), the partially written local
archive file is deleted before the error propagates: whenever the
operation returns an error, the target zip path holds no file. -/
theorem download_failure_removes_partial_file (fs : FS) (zipPath : Path)
    (status : Nat) (chunks : List String) (failAfter : Option Nat) (e : String)
    (h : (downloadStream fs zipPath status chunks failAfter).2 = .error e) :
    (downloadStream fs zipPath status chunks failAfter).1.files zipPath = none := by
  unfold downloadStream at h ⊢
  by_cases hs : status = 200
  · simp only [hs, ne_eq, not_true_eq_false, if_false] at h ⊢
    cases failAfter with
    | none => simp at h
    | some k => exact downloadCleanup_files_self _ _
  · simp only [ne_eq, hs, not_false_eq_true, if_true]
    exact downloadCleanup_files_self _ _

/-- Witness for C7: a 404 response on an empty filesystem. -/
theorem download_failure_removes_partial_file_witness :
    (downloadStream ⟨fun _ => none, fun _ => false⟩ ["spec-kit-template-copilot-sh.zip"]
        404 [] none).2 = Except.error "Download failed" ∧
    (downloadStream ⟨fun _ => none, fun _ => false⟩ ["spec-kit-template-copilot-sh.zip"]
        404 [] none).1.files ["spec-kit-template-copilot-sh.zip"] = none :=
  ⟨rfl, download_failure_removes_partial_file _ _ _ _ _ "Download failed" rfl⟩

/-! ## C10: token resolution -/

/-- C10 counterexample: an explicit whitespace-only token is NOT skipped
in favour of the next source — `" "` is truthy in Python, wins the `or`
chain, strips to the empty string, and yields no token at all even though
`GH_TOKEN` holds the non-empty value `"abc"`; no Authorization header is
attached.  The claim would require the token to resolve to `"abc"`. -/
theorem token_whitespace_shadowing_counterexample :
    githubToken (some " ") (some "abc") none = none ∧
    githubToken (some " ") (some "abc") none ≠ some "abc" ∧
    githubAuthHeaders (some " ") (some "abc") none = [] := by
  refine ⟨by decide, by decide, by decide⟩

/-- C10 (amended): an explicit EMPTY value is skipped in favour of the
next source, but a whitespace-only value at the front of the chain is
truthy, wins, and strips to empty — yielding no token regardless of later
sources.  A source whose value strips to non-empty yields that stripped
value, in precedence order (explicit, then GH_TOKEN, then GITHUB_TOKEN).
The Authorization header is attached iff a token resolves, and carries
`Bearer` plus the stripped token — an empty Bearer header is never
sent. -/
theorem token_resolution_amended :
    (∀ a b, githubToken (some "") a b = githubToken none a b) ∧
    (∀ s a b, s ≠ "" → pyStrip s = "" → githubToken (some s) a b = none) ∧
    (∀ s a b, pyStrip s ≠ "" → githubToken (some s) a b = some (pyStrip s)) ∧
    (∀ s b, pyStrip s ≠ "" → githubToken none (some s) b = some (pyStrip s)) ∧
    (∀ s, pyStrip s ≠ "" → githubToken none none (some s) = some (pyStrip s)) ∧
    githubToken none none none = none ∧
    (∀ c a b, githubAuthHeaders c a b = [] ↔ githubToken c a b = none) ∧
    (∀ c a b t, githubToken c a b = some t →
      githubAuthHeaders c a b = [("Authorization", "Bearer " ++ t)]) := by
  have hne : ∀ s : String, pyStrip s ≠ "" → s ≠ "" := by
    intro s h hs
    exact h (by rw [hs]; rfl)
  refine ⟨fun a b => rfl, ?_, ?_, ?_, ?_, rfl, ?_, ?_⟩
  · intro s a b hs htrim
    simp [githubToken, pyOrStr, if_neg hs, htrim]
  · intro s a b htrim
    simp [githubToken, pyOrStr, if_neg (hne s htrim), htrim]
  · intro s b htrim
    simp [githubToken, pyOrStr, if_neg (hne s htrim), htrim]
  · intro s htrim
    simp [githubToken, pyOrStr, if_neg (hne s htrim), htrim]
  · intro c a b
    unfold githubAuthHeaders
    cases h : githubToken c a b with
    | none => simp
    | some t => simp
  · intro c a b t h
    unfold githubAuthHeaders
    rw [h]

/-- Witness for C10 (amended) at concrete inputs. -/
theorem token_resolution_amended_witness :
    githubToken (some " ") (some "abc") none = none ∧
    githubToken (some " token ") none none = some "token" ∧
    githubToken none (some "abc") none = some "abc" := by
  refine ⟨token_resolution_amended.2.1 " " (some "abc") none (by decide) (by decide),
    ?_, ?_⟩
  · have h := token_resolution_amended.2.2.1 " token " none none (by decide)
    exact h.trans (by decide)
  · have h := token_resolution_amended.2.2.2.1 "abc" none (by decide)
    exact h.trans (by decide)

/-! ## C4: asset selection -/

/-- C4: asset selection fails with an error identifying the expected
pattern string if and only if no asset name contains the substring
`spec-kit-template-{assistant}-{script_type}` and ends with `.zip`; when
one or more assets match, the first matching asset in list order is
selected, even if other assets are present. -/
theorem asset_selection_first_match (assets : List Asset) (ai st : String) :
    (selectTemplateAsset assets ai st = .error (noAssetErrorMsg ai st) ↔
      ∀ a ∈ assets, assetMatches ai st a = false) ∧
    strContains (noAssetErrorMsg ai st) (assetPattern ai st) = true ∧
    (∀ (l1 : List Asset) (a : Asset) (l2 : List Asset), assets = l1 ++ a :: l2 →
      assetMatches ai st a = true → (∀ b ∈ l1, assetMatches ai st b = false) →
      selectTemplateAsset assets ai st = .ok a) := by
  have key : selectTemplateAsset assets ai st =
      match (assets.filter (assetMatches ai st)).head? with
      | some a => .ok a
      | none => .error (noAssetErrorMsg ai st) := rfl
  refine ⟨?_, ?_, ?_⟩
  · rw [key]
    cases hF : (assets.filter (assetMatches ai st)).head? with
    | some a =>
        simp only []
        constructor
        · intro h; exact absurd h (by simp)
        · intro hall
          have ha : a ∈ assets.filter (assetMatches ai st) :=
            List.mem_of_mem_head? (by rw [hF]; exact rfl)
          rcases List.mem_filter.mp ha with ⟨hmem, hmatch⟩
          rw [hall a hmem] at hmatch
          exact absurd hmatch (by simp)
    | none =>
        have hnil : assets.filter (assetMatches ai st) = [] :=
          List.head?_eq_none_iff.mp hF
        simp only []
        constructor
        · intro _ a ha
          by_contra hm
          have : a ∈ assets.filter (assetMatches ai st) :=
            List.mem_filter.mpr ⟨ha, by simpa using hm⟩
          rw [hnil] at this
          exact absurd this (List.not_mem_nil a)
        · intro _; trivial
  · unfold strContains
    rw [decide_eq_true_iff]
    refine ⟨("No matching release asset found for " ++ ai ++
      " (expected pattern: ").toList, ")".toList, ?_⟩
    show _ ++ (assetPattern ai st).data ++ _ = (noAssetErrorMsg ai st).data
    unfold noAssetErrorMsg
    simp [String.data_append, List.append_assoc]
  · intro l1 a l2 hassets hmatch hl1
    have hfl1 : l1.filter (assetMatches ai st) = [] := by
      rw [List.filter_eq_nil_iff]
      intro b hb
      simp [hl1 b hb]
    rw [key, hassets, List.filter_append, hfl1]
    simp [List.filter_cons, hmatch]

/-- Witness for C4: the copilot/sh asset is selected although a
claude-flavoured asset comes first and a second copilot asset follows. -/
theorem asset_selection_first_match_witness :
    selectTemplateAsset
      [⟨"spec-kit-template-claude-sh-v1.zip", 10, "u1"⟩,
       ⟨"spec-kit-template-copilot-sh-v1.zip", 11, "u2"⟩,
       ⟨"spec-kit-template-copilot-sh-v2.zip", 12, "u3"⟩] "copilot" "sh" =
      .ok ⟨"spec-kit-template-copilot-sh-v1.zip", 11, "u2"⟩ :=
  (asset_selection_first_match _ "copilot" "sh").2.2
    [⟨"spec-kit-template-claude-sh-v1.zip", 10, "u1"⟩]
    ⟨"spec-kit-template-copilot-sh-v1.zip", 11, "u2"⟩
    [⟨"spec-kit-template-copilot-sh-v2.zip", 12, "u3"⟩]
    rfl (by decide) (by decide)

/-! ## C6: config persistence -/

/-- C6 counterexample: a write that updates model metadata does NOT leave
existing script metadata unchanged.  Prior config holds script metadata
for PowerShell; a call selecting a model (with `script_type = "sh"`)
rewrites the `scripts` record from the current call's arguments, so the
persisted `preferred` value changes from `"ps"` to `"sh"` (and the
timestamp is refreshed).  The claim would require the prior `scripts`
record to survive the model-metadata write. -/
theorem config_model_write_rewrites_scripts_counterexample :
    (setupAgentCommandsConfig
        (some ⟨none,
          some (fun k =>
            if k = "preferred" then some "ps"
            else if k = "folder" then some "powershell"
            else if k = "extension" then some "ps1"
            else if k = "last_updated" then some "2024-01-01T00:00:00+00:00"
            else none),
          fun _ => none⟩)
        (some "gpt-4o") none none "sh" "bash" "sh"
        "2024-06-01T00:00:00+00:00").scripts.map (fun o => o "preferred") =
      some (some "sh") ∧
    some (some "sh") ≠ some (some "ps") := by
  exact ⟨rfl, by decide⟩

/-- C6 (amended): config persistence is key-preserving for the model
namespace and the unrelated top-level keys, but NOT for the script
namespace: (1) a write with no model selection preserves every existing
`github_models` key (it may only add missing catalog keys); (2) a write
that selects a model preserves every `github_models` key other than
`selected_model`, `last_updated`, `catalog_source` and `catalog_cached_at`;
(3) the `scripts` record is always rewritten from the current call's
arguments, independently of the prior state (so prior script metadata is
not preserved); (4) top-level keys unrelated to either namespace are
preserved across the rewrite, and a missing or unparseable prior file is
treated as an empty record. -/
theorem config_persistence_amended :
    (∀ (prior : ModelsJson) (gm : JObj) (cs cc : Option String)
        (st f e now k v : String),
      prior.github_models = some gm → gm k = some v →
      (setupAgentCommandsConfig (some prior) none cs cc st f e now).github_models.map
        (fun o => o k) = some (some v)) ∧
    (∀ (prior : ModelsJson) (gm : JObj) (m : String) (cs cc : Option String)
        (st f e now k v : String),
      k ≠ "selected_model" → k ≠ "last_updated" → k ≠ "catalog_source" →
      k ≠ "catalog_cached_at" →
      prior.github_models = some gm → gm k = some v →
      (setupAgentCommandsConfig (some prior) (some m) cs cc st f e now).github_models.map
        (fun o => o k) = some (some v)) ∧
    (∀ (prior prior' : Option ModelsJson) (sm cs cc : Option String)
        (st f e now : String),
      (setupAgentCommandsConfig prior sm cs cc st f e now).scripts =
        (setupAgentCommandsConfig prior' sm cs cc st f e now).scripts ∧
      (setupAgentCommandsConfig prior sm cs cc st f e now).scripts.map
        (fun o => o "preferred") = some (some st)) ∧
    (∀ (prior : ModelsJson) (sm cs cc : Option String) (st f e now k : String),
      (setupAgentCommandsConfig (some prior) sm cs cc st f e now).extra k =
        prior.extra k) ∧
    (∀ (sm cs cc : Option String) (st f e now : String),
      (setupAgentCommandsConfig none sm cs cc st f e now).github_models.map
          (fun o => o "selected_model") =
        (setupAgentCommandsConfig (some ⟨none, none, fun _ => none⟩) sm cs cc
          st f e now).github_models.map (fun o => o "selected_model")) := by
  constructor
  · intro prior gm cs cc st f e now k v hgm hk
    unfold setupAgentCommandsConfig
    simp only [Option.getD_some, hgm, Option.map_some]
    have hkcs : gm "catalog_source" = none → k ≠ "catalog_source" := by
      intro hcs hkk; rw [hkk] at hk; rw [hk] at hcs; exact absurd hcs (by simp)
    have hkcc : gm "catalog_cached_at" = none → k ≠ "catalog_cached_at" := by
      intro hcc hkk; rw [hkk] at hk; rw [hk] at hcc; exact absurd hcc (by simp)
    cases cs with
    | none =>
        cases cc with
        | none => simp [hk]
        | some ts =>
            by_cases hcc : gm "catalog_cached_at" = none
            · simp [hcc, hkcc hcc, hk]
            · simp [hcc, hk]
    | some s =>
        by_cases hcs : gm "catalog_source" = none
        · cases cc with
          | none => simp [hcs, hkcs hcs, hk]
          | some ts =>
              by_cases hcc : gm "catalog_cached_at" = none
              · simp [hcs, hcc, hkcs hcs, hkcc hcc, hk]
              · simp [hcs, hcc, hkcs hcs, hk]
        · cases cc with
          | none => simp [hcs, hk]
          | some ts =>
              by_cases hcc : gm "catalog_cached_at" = none
              · simp [hcs, hcc, hkcc hcc, hk]
              · simp [hcs, hcc, hk]
  · constructor
    · intro prior gm m cs cc st f e now k v hk1 hk2 hk3 hk4 hgm hk
      unfold setupAgentCommandsConfig
      simp only [Option.getD_some, hgm, Option.map_some]
      cases cc with
      | none => simp [hk1, hk2, hk3, hk]
      | some ts =>
          by_cases hcc : gm "catalog_cached_at" = none
          · simp [hcc, hk1, hk2, hk3, hk4, hk]
          · simp [hcc, hk1, hk2, hk3, hk]
    · refine ⟨fun prior prior' sm cs cc st f e now => ⟨rfl, rfl⟩, ?_, ?_⟩
      · intro prior sm cs cc st f e now k
        rfl
      · intro sm cs cc st f e now
        rfl

/-- Witness for C6 (amended): a script-flavour write with no model
selection keeps the previously selected model. -/
theorem config_persistence_amended_witness :
    (setupAgentCommandsConfig
        (some ⟨some (fun k => if k = "selected_model" then some "gpt-4o" else none),
          none, fun _ => none⟩)
        none none none "sh" "bash" "sh"
        "2024-06-01T00:00:00+00:00").github_models.map
      (fun o => o "selected_model") = some (some "gpt-4o") :=
  config_persistence_amended.1
    ⟨some (fun k => if k = "selected_model" then some "gpt-4o" else none),
      none, fun _ => none⟩
    (fun k => if k = "selected_model" then some "gpt-4o" else none)
    none none "sh" "bash" "sh" "2024-06-01T00:00:00+00:00"
    "selected_model" "gpt-4o" rfl (by decide)

/-! ## Workspace-sync lemmas (for C2 and C9) -/

@[simp] theorem FS.mkdirParents_dirs (fs : FS) (p q : Path) :
    (fs.mkdirParents p).dirs q = if q.isPrefixOf p then true else fs.dirs q := rfl

theorem isPrefixOf_self (p : Path) : p.isPrefixOf p = true := by
  induction p with
  | nil => rfl
  | cons a t ih => simp [List.isPrefixOf, ih]

theorem FS.mkdirParents_dirs_self (fs : FS) (p : Path) :
    (fs.mkdirParents p).dirs p = true := by
  simp [isPrefixOf_self]

mutual

/-- Any file present before `_merge_directory` runs still holds the same
content afterwards: existing targets are skipped, never overwritten. -/
theorem mergeDirectory_preserves (fs : FS) (src : Option FSTree) (dest : Path)
    (q : Path) (c : String) (h : fs.files q = some c) :
    (mergeDirectory fs src dest).1.files q = some c := by
  match src with
  | none => simpa [mergeDirectory] using h
  | some (FSTree.file cf) => simpa [mergeDirectory] using h
  | some (FSTree.dir es) =>
      have h1 := mergeDirEntries_preserves (fs.mkdirParents dest) dest es q c
        (by simpa using h)
      simpa [mergeDirectory] using h1

/-- The entry loop of `_merge_directory` never changes an existing file. -/
theorem mergeDirEntries_preserves (fs : FS) (dest : Path)
    (es : List (String × FSTree)) (q : Path) (c : String) (h : fs.files q = some c) :
    (mergeDirEntries fs dest es).1.files q = some c := by
  match es with
  | [] => simpa [mergeDirEntries] using h
  | (n, FSTree.dir es') :: rest =>
      have h1 := mergeDirectory_preserves fs (some (.dir es')) (dest ++ [n]) q c h
      have h2 := mergeDirEntries_preserves
        (mergeDirectory fs (some (.dir es')) (dest ++ [n])).1 dest rest q c h1
      simpa [mergeDirEntries] using h2
  | (n, FSTree.file cf) :: rest =>
      by_cases hex : fs.pathExists (dest ++ [n])
      · have h2 := mergeDirEntries_preserves fs dest rest q c h
        simpa [mergeDirEntries, hex] using h2
      · have hqn : q ≠ dest ++ [n] := by
          intro hq
          apply hex
          unfold FS.pathExists
          rw [← hq, h]
          simp
        have h1 : ((fs.mkdirParents (parentPath (dest ++ [n]))).writeFile
            (dest ++ [n]) cf).files q = some c := by
          simp [hqn, h]
        have h2 := mergeDirEntries_preserves _ dest rest q c h1
        simpa [mergeDirEntries, hex] using h2

end

mutual

/-- The merge never removes a directory marker. -/
theorem mergeDirectory_dirs_mono (fs : FS) (src : Option FSTree) (dest : Path)
    (q : Path) (h : fs.dirs q = true) :
    (mergeDirectory fs src dest).1.dirs q = true := by
  match src with
  | none => simpa [mergeDirectory] using h
  | some (FSTree.file cf) => simpa [mergeDirectory] using h
  | some (FSTree.dir es) =>
      have h1 := mergeDirEntries_dirs_mono (fs.mkdirParents dest) dest es q
        (by simp only [FS.mkdirParents_dirs]; split <;> simp [h])
      simpa [mergeDirectory] using h1

/-- The entry loop never removes a directory marker. -/
theorem mergeDirEntries_dirs_mono (fs : FS) (dest : Path)
    (es : List (String × FSTree)) (q : Path) (h : fs.dirs q = true) :
    (mergeDirEntries fs dest es).1.dirs q = true := by
  match es with
  | [] => simpa [mergeDirEntries] using h
  | (n, FSTree.dir es') :: rest =>
      have h1 := mergeDirectory_dirs_mono fs (some (.dir es')) (dest ++ [n]) q h
      have h2 := mergeDirEntries_dirs_mono
        (mergeDirectory fs (some (.dir es')) (dest ++ [n])).1 dest rest q h1
      simpa [mergeDirEntries] using h2
  | (n, FSTree.file cf) :: rest =>
      by_cases hex : fs.pathExists (dest ++ [n])
      · have h2 := mergeDirEntries_dirs_mono fs dest rest q h
        simpa [mergeDirEntries, hex] using h2
      · have h1 : ((fs.mkdirParents (parentPath (dest ++ [n]))).writeFile
            (dest ++ [n]) cf).dirs q = true := by
          simp only [FS.writeFile_dirs, FS.mkdirParents_dirs]
          split <;> simp [h]
        have h2 := mergeDirEntries_dirs_mono _ dest rest q h1
        simpa [mergeDirEntries, hex] using h2

end

mutual

/-- Merging a source directory creates the destination directory and,
recursively, a directory for every directory of the source tree — before
and independently of any file-copy checks. -/
theorem mergeDirectory_creates_dirs (fs : FS) (es : List (String × FSTree))
    (dest : Path) (d : Path) (hd : d ∈ FSTree.dirPathsOf (FSTree.dir es)) :
    (mergeDirectory fs (some (FSTree.dir es)) dest).1.dirs (dest ++ d) = true := by
  rw [show FSTree.dirPathsOf (FSTree.dir es) = [] :: dirPathsOfEntries es from rfl] at hd
  rcases List.mem_cons.mp hd with hnil | hmem
  · subst hnil
    have h0 : (fs.mkdirParents dest).dirs (dest ++ []) = true := by
      rw [List.append_nil]
      exact FS.mkdirParents_dirs_self fs dest
    have h1 := mergeDirEntries_dirs_mono (fs.mkdirParents dest) dest es
      (dest ++ []) h0
    simpa [mergeDirectory] using h1
  · have h1 := mergeDirEntries_creates_dirs (fs.mkdirParents dest) dest es d hmem
    simpa [mergeDirectory] using h1

/-- The entry loop creates a directory for every directory of the entry
trees. -/
theorem mergeDirEntries_creates_dirs (fs : FS) (dest : Path)
    (es : List (String × FSTree)) (d : Path) (hd : d ∈ dirPathsOfEntries es) :
    (mergeDirEntries fs dest es).1.dirs (dest ++ d) = true := by
  match es with
  | [] => simp [dirPathsOfEntries] at hd
  | (n, FSTree.dir es') :: rest =>
      rw [show dirPathsOfEntries ((n, FSTree.dir es') :: rest) =
        (FSTree.dirPathsOf (FSTree.dir es')).map (fun p => n :: p) ++
          dirPathsOfEntries rest from rfl] at hd
      rcases List.mem_append.mp hd with hleft | hright
      · rcases List.mem_map.mp hleft with ⟨d', hd', rfl⟩
        have h1 := mergeDirectory_creates_dirs fs es' (dest ++ [n]) d' hd'
        have heq : (dest ++ [n]) ++ d' = dest ++ n :: d' := by simp
        rw [heq] at h1
        have h2 := mergeDirEntries_dirs_mono
          (mergeDirectory fs (some (.dir es')) (dest ++ [n])).1 dest rest
          (dest ++ n :: d') h1
        simpa [mergeDirEntries] using h2
      · have h1 := mergeDirEntries_creates_dirs
          (mergeDirectory fs (some (.dir es')) (dest ++ [n])).1 dest rest d hright
        simpa [mergeDirEntries] using h1
  | (n, FSTree.file cf) :: rest =>
      rw [show dirPathsOfEntries ((n, FSTree.file cf) :: rest) =
        dirPathsOfEntries rest from by
          simp [dirPathsOfEntries, FSTree.dirPathsOf]] at hd
      by_cases hex : fs.pathExists (dest ++ [n])
      · have h1 := mergeDirEntries_creates_dirs fs dest rest d hd
        simpa [mergeDirEntries, hex] using h1
      · have h1 := mergeDirEntries_creates_dirs
          ((fs.mkdirParents (parentPath (dest ++ [n]))).writeFile (dest ++ [n]) cf)
          dest rest d hd
        simpa [mergeDirEntries, hex] using h1

end

theorem syncDirStep_preserves (root : Path) (trees : String → Option FSTree)
    (acc : FS × List String) (dirname : String) (q : Path) (c : String)
    (h : acc.1.files q = some c) :
    (syncDirStep root trees acc dirname).1.files q = some c := by
  unfold syncDirStep
  cases trees dirname with
  | none => exact h
  | some src => exact mergeDirectory_preserves _ _ _ _ _ h

theorem syncDirStep_dirs_mono (root : Path) (trees : String → Option FSTree)
    (acc : FS × List String) (dirname : String) (q : Path)
    (h : acc.1.dirs q = true) :
    (syncDirStep root trees acc dirname).1.dirs q = true := by
  unfold syncDirStep
  cases trees dirname with
  | none => exact h
  | some src => exact mergeDirectory_dirs_mono _ _ _ _ h

theorem syncDirStep_creates (root : Path) (trees : String → Option FSTree)
    (acc : FS × List String) (dirname : String) (es : List (String × FSTree))
    (d : Path) (htree : trees dirname = some (FSTree.dir es))
    (hd : d ∈ FSTree.dirPathsOf (FSTree.dir es)) :
    (syncDirStep root trees acc dirname).1.dirs ((root ++ [dirname]) ++ d) = true := by
  unfold syncDirStep
  rw [htree]
  exact mergeDirectory_creates_dirs _ _ _ _ hd

/-! ## C2: workspace sync never overwrites; no-op guards -/

/-- C2: workspace synchronization never overwrites a file that already
exists at the destination — every file present under the workspace root
before the sync holds identical content afterwards, even when the project
directory offers a file at the same relative path with different content;
and the operation is a no-op reporting no sync needed (changed = false,
filesystem untouched) when the project path equals the workspace root or
the workspace root is not inside a git repository. -/
theorem workspace_sync_no_overwrite (fs : FS) (projectPath workspaceRoot : Path)
    (git : Bool) (projectTrees : String → Option FSTree) :
    (∀ q c, fs.files q = some c →
      (sync_workspace_config fs projectPath workspaceRoot git projectTrees).1.files q =
        some c) ∧
    (projectPath = workspaceRoot →
      sync_workspace_config fs projectPath workspaceRoot git projectTrees =
        (fs, false, "project is workspace root")) ∧
    (projectPath ≠ workspaceRoot → git = false →
      sync_workspace_config fs projectPath workspaceRoot git projectTrees =
        (fs, false, "workspace root not a git repo")) := by
  refine ⟨?_, ?_, ?_⟩
  · intro q c h
    unfold sync_workspace_config
    by_cases hpw : projectPath = workspaceRoot
    · simpa [hpw] using h
    · rw [if_neg hpw]
      cases git with
      | false => simpa using h
      | true =>
          simp only [Bool.not_true, Bool.false_eq_true, if_false]
          have hr : (WORKSPACE_DOT_DIRS.foldl (syncDirStep workspaceRoot projectTrees)
              (fs, [])).1.files q = some c := by
            show (syncDirStep workspaceRoot projectTrees
              (syncDirStep workspaceRoot projectTrees
                (syncDirStep workspaceRoot projectTrees (fs, []) ".github")
                ".vscode") ".specify").1.files q = some c
            exact syncDirStep_preserves _ _ _ _ _ _
              (syncDirStep_preserves _ _ _ _ _ _
                (syncDirStep_preserves _ _ _ _ _ _ h))
          split <;> exact hr
  · intro hpw
    simp [sync_workspace_config, hpw]
  · intro hpw hgit
    simp [sync_workspace_config, hpw, hgit]

/-- Witness for C2: a pre-existing workspace file with content "A"
survives a sync in which the project offers "B" at the same relative
path, and both no-op guards fire on concrete inputs. -/
theorem workspace_sync_no_overwrite_witness :
    (sync_workspace_config
        ⟨fun q => if q = [".github", "a.txt"] then some "A" else none,
          fun q => decide (q = [".github"])⟩
        ["proj"] [] true
        (fun n => if n = ".github" then
          some (FSTree.dir [("a.txt", FSTree.file "B")]) else none)).1.files
      [".github", "a.txt"] = some "A" ∧
    sync_workspace_config ⟨fun _ => none, fun _ => false⟩ ["p"] ["p"] true
        (fun _ => none) =
      (⟨fun _ => none, fun _ => false⟩, false, "project is workspace root") ∧
    sync_workspace_config ⟨fun _ => none, fun _ => false⟩ ["p"] [] false
        (fun _ => none) =
      (⟨fun _ => none, fun _ => false⟩, false, "workspace root not a git repo") := by
  refine ⟨?_, ?_, ?_⟩
  · exact (workspace_sync_no_overwrite _ _ _ _ _).1 [".github", "a.txt"] "A" rfl
  · exact (workspace_sync_no_overwrite _ _ _ _ _).2.1 rfl
  · exact (workspace_sync_no_overwrite _ _ _ _ _).2.2 (by decide) rfl

/-! ## C9: sync creates directory skeletons even when nothing is copied -/

/-- C9: for every dot-directory in the fixed set that exists as a
directory under the project, and every directory inside its tree,
`sync_workspace_config` creates the corresponding directory under the
workspace root — `_merge_directory` runs `mkdir(parents=True)` before
checking for files to copy, so directories appear even when the result
reports nothing was synced. -/
theorem sync_creates_directory_skeleton (fs : FS) (projectPath workspaceRoot : Path)
    (projectTrees : String → Option FSTree) (dirname : String)
    (es : List (String × FSTree)) (d : Path)
    (hne : projectPath ≠ workspaceRoot)
    (hmem : dirname ∈ WORKSPACE_DOT_DIRS)
    (htree : projectTrees dirname = some (FSTree.dir es))
    (hd : d ∈ FSTree.dirPathsOf (FSTree.dir es)) :
    (sync_workspace_config fs projectPath workspaceRoot true projectTrees).1.dirs
      ((workspaceRoot ++ [dirname]) ++ d) = true := by
  unfold sync_workspace_config
  rw [if_neg hne]
  simp only [Bool.not_true, Bool.false_eq_true, if_false]
  have hmem2 : dirname = ".github" ∨ dirname = ".vscode" ∨ dirname = ".specify" := by
    simpa [WORKSPACE_DOT_DIRS] using hmem
  have hr : (WORKSPACE_DOT_DIRS.foldl (syncDirStep workspaceRoot projectTrees)
      (fs, [])).1.dirs ((workspaceRoot ++ [dirname]) ++ d) = true := by
    show (syncDirStep workspaceRoot projectTrees
      (syncDirStep workspaceRoot projectTrees
        (syncDirStep workspaceRoot projectTrees (fs, []) ".github")
        ".vscode") ".specify").1.dirs ((workspaceRoot ++ [dirname]) ++ d) = true
    rcases hmem2 with h1 | h1 | h1 <;> subst h1
    · exact syncDirStep_dirs_mono _ _ _ _ _
        (syncDirStep_dirs_mono _ _ _ _ _
          (syncDirStep_creates _ _ _ _ _ _ htree hd))
    · exact syncDirStep_dirs_mono _ _ _ _ _
        (syncDirStep_creates _ _ _ _ _ _ htree hd)
    · exact syncDirStep_creates _ _ _ _ _ _ htree hd
  split <;> exact hr

/-- Witness for C9: syncing an empty `.vscode` project directory into an
empty workspace creates the `.vscode` directory at the workspace root even
though no file is copied and the result reports no directories synced. -/
theorem sync_creates_directory_skeleton_witness :
    (sync_workspace_config ⟨fun _ => none, fun _ => false⟩ ["proj"] [] true
        (fun n => if n = ".vscode" then some (FSTree.dir []) else none)).1.dirs
      (([] ++ [".vscode"]) ++ []) = true ∧
    (sync_workspace_config ⟨fun _ => none, fun _ => false⟩ ["proj"] [] true
        (fun n => if n = ".vscode" then some (FSTree.dir []) else none)).2 =
      (false, "no workspace directories to sync") := by
  refine ⟨sync_creates_directory_skeleton _ _ _ _ ".vscode" [] [] (by decide)
    (by decide) rfl (by decide), ?_⟩
  simp +decide [sync_workspace_config, WORKSPACE_DOT_DIRS, syncDirStep,
    mergeDirectory, mergeDirEntries]

/-! ## Merge-mode copy lemmas (for C3 and C8) -/

@[simp] theorem filesOf_file (c : String) :
    (FSTree.file c).filesOf = [([], c)] := by
  simp [FSTree.filesOf]

@[simp] theorem filesOf_dir (es : List (String × FSTree)) :
    (FSTree.dir es).filesOf = filesOfEntries es := by
  simp [FSTree.filesOf]

@[simp] theorem filesOfEntries_nil : filesOfEntries [] = [] := by
  simp [filesOfEntries]

@[simp] theorem filesOfEntries_cons (n : String) (t : FSTree)
    (rest : List (String × FSTree)) :
    filesOfEntries ((n, t) :: rest) =
      (t.filesOf).map (fun pc => (n :: pc.1, pc.2)) ++ filesOfEntries rest := by
  simp [filesOfEntries]

@[simp] theorem wf_file (c : String) : (FSTree.file c).wf = true := by
  simp [FSTree.wf]

@[simp] theorem wf_dir (es : List (String × FSTree)) :
    (FSTree.dir es).wf = wfEntries es := by
  simp [FSTree.wf]

@[simp] theorem wfEntries_nil : wfEntries [] = true := by
  simp [wfEntries]

theorem wfEntries_cons_iff (n : String) (t : FSTree)
    (rest : List (String × FSTree)) :
    wfEntries ((n, t) :: rest) = true ↔
      t.wf = true ∧ (∀ e ∈ rest, e.1 ≠ n) ∧ wfEntries rest = true := by
  rw [show wfEntries ((n, t) :: rest) =
    (t.wf && rest.all (fun e => e.1 != n) && wfEntries rest) from by
      simp [wfEntries]]
  simp [List.all_eq_true, and_assoc]

theorem mem_filesOfEntries {es : List (String × FSTree)} {pc : Path × String}
    (h : pc ∈ filesOfEntries es) :
    ∃ n t p, (n, t) ∈ es ∧ pc.1 = n :: p ∧ (p, pc.2) ∈ t.filesOf := by
  induction es with
  | nil => simp at h
  | cons e rest ih =>
      obtain ⟨n, t⟩ := e
      rw [filesOfEntries_cons] at h
      rcases List.mem_append.mp h with hl | hr
      · rcases List.mem_map.mp hl with ⟨⟨p, c⟩, hpc, heq⟩
        subst heq
        exact ⟨n, t, p, List.mem_cons_self _ _, rfl, hpc⟩
      · rcases ih hr with ⟨n2, t2, p2, hmem, h1, h2⟩
        exact ⟨n2, t2, p2, List.mem_cons_of_mem _ hmem, h1, h2⟩

theorem path_cons_ne_of_ne_tail (destRoot : Path) (n : String) {p1 p2 : Path}
    (h : p1 ≠ p2) : destRoot ++ n :: p1 ≠ destRoot ++ n :: p2 := by
  intro he
  have h2 := List.append_cancel_left he
  apply h
  injection h2

theorem path_cons_ne_of_ne_head (destRoot : Path) {n1 n2 : String}
    (h : n1 ≠ n2) (p1 p2 : Path) :
    destRoot ++ n1 :: p1 ≠ destRoot ++ n2 :: p2 := by
  intro he
  have h2 := List.append_cancel_left he
  apply h
  injection h2

mutual

/-- In a well-formed tree the relative paths of all files are pairwise
distinct. -/
theorem wf_filesOf_pairwise (t : FSTree) (h : t.wf = true) :
    t.filesOf.Pairwise (fun a b => a.1 ≠ b.1) := by
  match t with
  | .file c => simp
  | .dir es =>
      have := wfEntries_filesOfEntries_pairwise es (by simpa using h)
      simpa using this

/-- In a well-formed entry list the relative paths of all files are
pairwise distinct. -/
theorem wfEntries_filesOfEntries_pairwise (es : List (String × FSTree))
    (h : wfEntries es = true) :
    (filesOfEntries es).Pairwise (fun a b => a.1 ≠ b.1) := by
  match es with
  | [] => simp
  | (n, t) :: rest =>
      obtain ⟨hwt, hnames, hwrest⟩ := (wfEntries_cons_iff n t rest).mp h
      rw [filesOfEntries_cons, List.pairwise_append]
      refine ⟨?_, wfEntries_filesOfEntries_pairwise rest hwrest, ?_⟩
      · rw [List.pairwise_map]
        exact (wf_filesOf_pairwise t hwt).imp (by
          intro a b hab
          simp only [ne_eq]
          intro he
          apply hab
          injection he)
      · intro a ha b hb
        rcases List.mem_map.mp ha with ⟨⟨p, c⟩, _, heqa⟩
        subst heqa
        rcases mem_filesOfEntries hb with ⟨n2, t2, p2, hmem2, hb1, _⟩
        rw [hb1]
        simp only [ne_eq]
        intro he
        apply hnames (n2, t2) hmem2
        injection he with he1 _
        exact he1.symm

end

mutual

/-- Frame property of `shutil.copytree`: paths not under the copied tree's
files are untouched. -/
theorem copyTree_files_frame (fs : FS) (base : Path) (t : FSTree) (q : Path)
    (h : ∀ pc ∈ t.filesOf, base ++ pc.1 ≠ q) :
    (fs.copyTree base t).files q = fs.files q := by
  match t with
  | .file c =>
      have hq : base ++ ([] : Path) ≠ q := h ([], c) (by simp)
      rw [List.append_nil] at hq
      rw [show fs.copyTree base (.file c) = fs.writeFile base c from by
        simp [FS.copyTree]]
      simp [Ne.symm hq]
  | .dir es =>
      have h1 := copyTreeEntries_files_frame (fs.mkdirParents base) base es q
        (fun pc hpc => h pc (by simpa using hpc))
      rw [show fs.copyTree base (.dir es) =
        copyTreeEntries (fs.mkdirParents base) base es from by simp [FS.copyTree]]
      rw [h1]
      rfl

/-- Frame property of the entry-copy loop of `shutil.copytree`. -/
theorem copyTreeEntries_files_frame (fs : FS) (base : Path)
    (es : List (String × FSTree)) (q : Path)
    (h : ∀ pc ∈ filesOfEntries es, base ++ pc.1 ≠ q) :
    (copyTreeEntries fs base es).files q = fs.files q := by
  match es with
  | [] => simp [copyTreeEntries]
  | (n, t) :: rest =>
      have hsub : ∀ pc ∈ t.filesOf, (base ++ [n]) ++ pc.1 ≠ q := by
        intro pc hpc
        have hm : (n :: pc.1, pc.2) ∈ filesOfEntries ((n, t) :: rest) := by
          rw [filesOfEntries_cons]
          apply List.mem_append_left
          exact List.mem_map.mpr ⟨pc, hpc, rfl⟩
        have h2 := h (n :: pc.1, pc.2) hm
        simpa [List.append_assoc] using h2
      have hrest : ∀ pc ∈ filesOfEntries rest, base ++ pc.1 ≠ q := by
        intro pc hpc
        apply h
        rw [filesOfEntries_cons]
        exact List.mem_append_right _ hpc
      have h1 := copyTree_files_frame fs (base ++ [n]) t q hsub
      have h2 := copyTreeEntries_files_frame (FS.copyTree fs (base ++ [n]) t)
        base rest q hrest
      rw [show copyTreeEntries fs base ((n, t) :: rest) =
        copyTreeEntries (FS.copyTree fs (base ++ [n]) t) base rest from by
          simp [copyTreeEntries]]
      rw [h2, h1]

end

mutual

/-- Write property of `shutil.copytree`: every file of a well-formed
copied tree ends up at its relative path with its content. -/
theorem copyTree_files_write (fs : FS) (base : Path) (t : FSTree)
    (hwf : t.wf = true) (p : Path) (c : String) (hmem : (p, c) ∈ t.filesOf) :
    (fs.copyTree base t).files (base ++ p) = some c := by
  match t with
  | .file cf =>
      rw [filesOf_file] at hmem
      simp only [List.mem_singleton, Prod.mk.injEq] at hmem
      obtain ⟨rfl, rfl⟩ := hmem
      rw [show fs.copyTree base (.file c) = fs.writeFile base c from by
        simp [FS.copyTree]]
      simp
  | .dir es =>
      have h1 := copyTreeEntries_files_write (fs.mkdirParents base) base es
        (by simpa using hwf) p c (by simpa using hmem)
      rw [show fs.copyTree base (.dir es) =
        copyTreeEntries (fs.mkdirParents base) base es from by simp [FS.copyTree]]
      exact h1

/-- Write property of the entry-copy loop of `shutil.copytree`. -/
theorem copyTreeEntries_files_write (fs : FS) (base : Path)
    (es : List (String × FSTree)) (hwf : wfEntries es = true)
    (p : Path) (c : String) (hmem : (p, c) ∈ filesOfEntries es) :
    (copyTreeEntries fs base es).files (base ++ p) = some c := by
  match es with
  | [] => simp at hmem
  | (n, t) :: rest =>
      obtain ⟨hwt, hnames, hwrest⟩ := (wfEntries_cons_iff n t rest).mp hwf
      rw [show copyTreeEntries fs base ((n, t) :: rest) =
        copyTreeEntries (FS.copyTree fs (base ++ [n]) t) base rest from by
          simp [copyTreeEntries]]
      rw [filesOfEntries_cons] at hmem
      rcases List.mem_append.mp hmem with hl | hr
      · rcases List.mem_map.mp hl with ⟨⟨p2, c2⟩, hpc2, heq⟩
        simp only [Prod.mk.injEq] at heq
        obtain ⟨rfl, rfl⟩ := heq
        have hw := copyTree_files_write fs (base ++ [n]) t hwt p2 c2 hpc2
        have hframe := copyTreeEntries_files_frame
          (FS.copyTree fs (base ++ [n]) t) base rest (base ++ n :: p2)
          (fun pc hpc => by
            rcases mem_filesOfEntries hpc with ⟨n2, t2, p3, hmem2, hpc1, _⟩
            rw [hpc1]
            exact path_cons_ne_of_ne_head base
              (fun he => hnames (n2, t2) hmem2 he) p3 p2)
        rw [hframe]
        rw [show base ++ n :: p2 = (base ++ [n]) ++ p2 from by simp]
        exact hw
      · exact copyTreeEntries_files_write (FS.copyTree fs (base ++ [n]) t) base
          rest hwrest p c hr

end

/-- Frame property of the `rglob` copy loop used when a destination
directory already exists. -/
theorem writeLoop_files_frame (destRoot : Path) (n : String)
    (L : List (Path × String)) (fs : FS) (q : Path)
    (h : ∀ pc ∈ L, destRoot ++ n :: pc.1 ≠ q) :
    (L.foldl (fun acc pc =>
      (acc.mkdirParents (parentPath (destRoot ++ n :: pc.1))).writeFile
        (destRoot ++ n :: pc.1) pc.2) fs).files q = fs.files q := by
  induction L generalizing fs with
  | nil => rfl
  | cons pc rest ih =>
      rw [List.foldl_cons]
      rw [ih _ (fun pc2 h2 => h pc2 (List.mem_cons_of_mem _ h2))]
      have hq := h pc (List.mem_cons_self _ _)
      simp [Ne.symm hq]

/-- Write property of the `rglob` copy loop: with pairwise-distinct
relative paths, every listed file ends up with its listed content. -/
theorem writeLoop_files_write (destRoot : Path) (n : String)
    (L : List (Path × String)) (fs : FS) (p : Path) (c : String)
    (hmem : (p, c) ∈ L) (hpw : L.Pairwise (fun a b => a.1 ≠ b.1)) :
    (L.foldl (fun acc pc =>
      (acc.mkdirParents (parentPath (destRoot ++ n :: pc.1))).writeFile
        (destRoot ++ n :: pc.1) pc.2) fs).files (destRoot ++ n :: p) = some c := by
  induction L generalizing fs with
  | nil => cases hmem
  | cons pc rest ih =>
      rw [List.foldl_cons]
      rcases List.mem_cons.mp hmem with heq | hrest
      · subst heq
        rw [writeLoop_files_frame destRoot n rest _ _ ?hfr]
        · simp
        case hfr =>
          intro pc2 h2
          exact path_cons_ne_of_ne_tail destRoot n
            (((List.pairwise_cons.mp hpw).1 pc2 h2).symm)
      · exact ih _ hrest (List.pairwise_cons.mp hpw).2

/-- Frame property of one merge-mode item copy. -/
theorem copyMergeItem_files_frame (fs : FS) (destRoot : Path) (n : String)
    (t : FSTree) (q : Path)
    (h : ∀ pc ∈ t.filesOf, destRoot ++ n :: pc.1 ≠ q) :
    (copyMergeItem fs destRoot n t).files q = fs.files q := by
  match t with
  | .file c =>
      have hq := h ([], c) (by simp)
      rw [show copyMergeItem fs destRoot n (.file c) =
        fs.writeFile (destRoot ++ [n]) c from by simp [copyMergeItem]]
      simp [Ne.symm hq]
  | .dir es =>
      rw [show copyMergeItem fs destRoot n (.dir es) =
        (if fs.pathExists (destRoot ++ [n]) then
          (filesOfEntries es).foldl
            (fun acc pc =>
              (acc.mkdirParents (parentPath (destRoot ++ n :: pc.1))).writeFile
                (destRoot ++ n :: pc.1) pc.2) fs
        else fs.copyTree (destRoot ++ [n]) (.dir es)) from by simp [copyMergeItem]]
      by_cases hex : fs.pathExists (destRoot ++ [n])
      · rw [if_pos hex]
        exact writeLoop_files_frame destRoot n (filesOfEntries es) fs q
          (fun pc hpc => h pc (by simpa using hpc))
      · rw [if_neg hex]
        apply copyTree_files_frame
        intro pc hpc
        have h2 := h pc hpc
        simpa [List.append_assoc] using h2

/-- Write property of one merge-mode item copy: each file of the item
lands at its path with its content, in both the merge-into-existing and
the `copytree` branch. -/
theorem copyMergeItem_files_write (fs : FS) (destRoot : Path) (n : String)
    (t : FSTree) (hwf : t.wf = true) (p : Path) (c : String)
    (hmem : (p, c) ∈ t.filesOf) :
    (copyMergeItem fs destRoot n t).files (destRoot ++ n :: p) = some c := by
  match t with
  | .file cf =>
      rw [filesOf_file] at hmem
      simp only [List.mem_singleton, Prod.mk.injEq] at hmem
      obtain ⟨rfl, rfl⟩ := hmem
      rw [show copyMergeItem fs destRoot n (.file c) =
        fs.writeFile (destRoot ++ [n]) c from by simp [copyMergeItem]]
      simp
  | .dir es =>
      rw [show copyMergeItem fs destRoot n (.dir es) =
        (if fs.pathExists (destRoot ++ [n]) then
          (filesOfEntries es).foldl
            (fun acc pc =>
              (acc.mkdirParents (parentPath (destRoot ++ n :: pc.1))).writeFile
                (destRoot ++ n :: pc.1) pc.2) fs
        else fs.copyTree (destRoot ++ [n]) (.dir es)) from by simp [copyMergeItem]]
      by_cases hex : fs.pathExists (destRoot ++ [n])
      · rw [if_pos hex]
        exact writeLoop_files_write destRoot n (filesOfEntries es) fs p c
          (by simpa using hmem)
          (wfEntries_filesOfEntries_pairwise es (by simpa using hwf))
      · rw [if_neg hex]
        have hw := copyTree_files_write fs (destRoot ++ [n]) (.dir es) hwf p c hmem
        rw [show destRoot ++ n :: p = (destRoot ++ [n]) ++ p from by simp]
        exact hw

/-- Frame property of the merge-mode copy loop over top-level items. -/
theorem mergeCopyAll_files_frame (destRoot : Path)
    (items : List (String × FSTree)) (fs : FS) (q : Path)
    (h : ∀ pc ∈ filesOfEntries items, destRoot ++ pc.1 ≠ q) :
    (mergeCopyAll fs destRoot items).files q = fs.files q := by
  induction items generalizing fs with
  | nil => rfl
  | cons e rest ih =>
      obtain ⟨n, t⟩ := e
      rw [show mergeCopyAll fs destRoot ((n, t) :: rest) =
        mergeCopyAll (copyMergeItem fs destRoot n t) destRoot rest from rfl]
      have hrest : ∀ pc ∈ filesOfEntries rest, destRoot ++ pc.1 ≠ q := by
        intro pc hpc
        apply h
        rw [filesOfEntries_cons]
        exact List.mem_append_right _ hpc
      rw [ih _ hrest]
      apply copyMergeItem_files_frame
      intro pc hpc
      have hm : (n :: pc.1, pc.2) ∈ filesOfEntries ((n, t) :: rest) := by
        rw [filesOfEntries_cons]
        apply List.mem_append_left
        exact List.mem_map.mpr ⟨pc, hpc, rfl⟩
      exact h (n :: pc.1, pc.2) hm

/-- Write property of the merge-mode copy loop: with a well-formed source
tree, every source file ends up at its path with its content. -/
theorem mergeCopyAll_files_write (destRoot : Path)
    (items : List (String × FSTree)) (fs : FS)
    (hwf : wfEntries items = true) (p : Path) (c : String)
    (hmem : (p, c) ∈ filesOfEntries items) :
    (mergeCopyAll fs destRoot items).files (destRoot ++ p) = some c := by
  induction items generalizing fs with
  | nil => simp at hmem
  | cons e rest ih =>
      obtain ⟨n, t⟩ := e
      obtain ⟨hwt, hnames, hwrest⟩ := (wfEntries_cons_iff n t rest).mp hwf
      rw [show mergeCopyAll fs destRoot ((n, t) :: rest) =
        mergeCopyAll (copyMergeItem fs destRoot n t) destRoot rest from rfl]
      rw [filesOfEntries_cons] at hmem
      rcases List.mem_append.mp hmem with hl | hr
      · rcases List.mem_map.mp hl with ⟨⟨p2, c2⟩, hpc2, heq⟩
        simp only [Prod.mk.injEq] at heq
        obtain ⟨rfl, rfl⟩ := heq
        have hfr : ∀ pc ∈ filesOfEntries rest, destRoot ++ pc.1 ≠ destRoot ++ n :: p2 := by
          intro pc hpc
          rcases mem_filesOfEntries hpc with ⟨n2, t2, p3, hmem2, hpc1, _⟩
          rw [hpc1]
          exact path_cons_ne_of_ne_head destRoot
            (fun he => hnames (n2, t2) hmem2 he) p3 p2
        rw [mergeCopyAll_files_frame destRoot rest _ _ hfr]
        exact copyMergeItem_files_write fs destRoot n t hwt p2 c2 hpc2
      · exact ih _ hwrest hr

/-- Merge-mode materialization is the copy loop applied to the effective
(post-flatten) source tree. -/
theorem mergeMaterialize_eq (fs : FS) (destRoot : Path)
    (items : List (String × FSTree)) :
    mergeMaterialize fs destRoot items =
      mergeCopyAll fs destRoot (effectiveSourceTree items) := by
  cases items with
  | nil => rfl
  | cons x rest =>
      obtain ⟨n, t⟩ := x
      cases t <;> cases rest <;> rfl

/-! ## C3: merge mode overwrites colliding files -/

/-- C3: in merge mode, for every file in the archive's effective
(post-flatten) tree whose relative path collides with an existing file in
the destination, after materialization the destination holds the archive
file's content — files are overwritten unconditionally, and directories
that already exist are merged file-by-file (the write goes through in
both the existing-directory and the fresh-`copytree` branch). -/
theorem merge_mode_overwrites_colliding_files (fs : FS) (destRoot : Path)
    (extractedItems : List (String × FSTree)) (p : Path) (c old : String)
    (hwf : wfEntries (effectiveSourceTree extractedItems) = true)
    (hmem : (p, c) ∈ filesOfEntries (effectiveSourceTree extractedItems))
    (_hcollide : fs.files (destRoot ++ p) = some old) :
    (mergeMaterialize fs destRoot extractedItems).files (destRoot ++ p) = some c := by
  rw [mergeMaterialize_eq]
  exact mergeCopyAll_files_write destRoot _ fs hwf p c hmem

/-- Witness for C3: the spec's scenario — archive `pkg/a.txt` holding
"NEW", destination already holding "OLD" at `a.txt`; after the merge the
destination holds "NEW". -/
theorem merge_mode_overwrites_colliding_files_witness :
    (mergeMaterialize
        ⟨fun q => if q = ["a.txt"] then some "OLD" else none,
          fun q => decide (q = [])⟩
        [] [("pkg", FSTree.dir [("a.txt", FSTree.file "NEW")])]).files
      ([] ++ ["a.txt"]) = some "NEW" := by
  apply merge_mode_overwrites_colliding_files _ _ _ _ "NEW" "OLD"
  · show wfEntries [("a.txt", FSTree.file "NEW")] = true
    simp [wfEntries]
  · show (["a.txt"], "NEW") ∈ filesOfEntries [("a.txt", FSTree.file "NEW")]
    simp
  · rfl

/-! ## C8: merge mode leaves non-colliding destination files intact -/

/-- C8: for all merge-mode materializations, every file present in the
destination before the merge whose path does not collide with any file
path of the archive's effective (post-flatten) tree holds identical
content afterwards — the merge writes only paths that come from the
archive. -/
theorem merge_mode_preserves_noncolliding_files (fs : FS) (destRoot : Path)
    (extractedItems : List (String × FSTree)) (q : Path) (c : String)
    (hpre : fs.files q = some c)
    (hnc : ∀ pc ∈ filesOfEntries (effectiveSourceTree extractedItems),
      destRoot ++ pc.1 ≠ q) :
    (mergeMaterialize fs destRoot extractedItems).files q = some c := by
  rw [mergeMaterialize_eq]
  rw [mergeCopyAll_files_frame destRoot _ fs q hnc]
  exact hpre

/-- Witness for C8: a destination file `keep.txt` not present in the
archive survives the merge of `pkg/a.txt`. -/
theorem merge_mode_preserves_noncolliding_files_witness :
    (mergeMaterialize
        ⟨fun q => if q = ["keep.txt"] then some "K" else none,
          fun q => decide (q = [])⟩
        [] [("pkg", FSTree.dir [("a.txt", FSTree.file "NEW")])]).files
      ["keep.txt"] = some "K" := by
  apply merge_mode_preserves_noncolliding_files _ _ _ _ "K" rfl
  show ∀ pc ∈ filesOfEntries [("a.txt", FSTree.file "NEW")], [] ++ pc.1 ≠ ["keep.txt"]
  intro pc hpc
  simp at hpc
  rw [hpc]
  decide

end SpecifyCli
